import Mathlib

/-!
Verification of the partition-layout calculator and artifact emitters of
the mcu-boot partition tooling (partion.py, analyze_flash.py).

Python integers are modelled as `Int`; Python exceptions raised by the
code are modelled by the `PyError` type; functions that can raise return
`Except PyError`.  The file-writing wrappers are modelled by pure
functions returning the text they would write.
-/

set_option maxRecDepth 100000

deriving instance DecidableEq for Except

namespace Partion

/-- Python builtin exception classes that the claims mention.  The source
only ever raises `ValueError`; `OverflowError` is the class named by the
claims. -/
inductive PyError where
  | valueError (msg : String)
  | overflowError (msg : String)
deriving DecidableEq, Repr

/-- The single-quote character, used in the ValueError message text. -/
def sq : String := String.singleton (Char.ofNat 39)

/-- The message of the ValueError raised by calculate\_partitions:
`Partition <name> exceeds flash size!` with the name in single quotes. -/
def errMsg (name : String) : String :=
  "Partition " ++ sq ++ name ++ sq ++ " exceeds flash size!"

/-- A partition record as built by `calculate_partitions`:
`\x7bname, start, end, size\x7d`.  (`end` is a Lean keyword, hence `end_`.) -/
structure Partition where
  name : String
  start : Int
  end_ : Int
  size : Int
deriving DecidableEq, Repr

/-- The loop body of `calculate_partitions`, with the running
`current_address` cursor made explicit. -/
def calcGo (flash_size : Int) (current_address : Int) :
    List (String × Int) → Except PyError (List Partition)
  | [] => Except.ok []
  | (name, size) :: rest =>
    if current_address + size > flash_size then
      Except.error (PyError.valueError (errMsg name))
    else
      match calcGo flash_size (current_address + size) rest with
      | Except.error e => Except.error e
      | Except.ok tail =>
        Except.ok (⟨name, current_address, current_address + size, size⟩ :: tail)

/-- `calculate_partitions(flash_size, partitions)` from partion.py:
walks the requests in order with a cursor starting at 0, raising a
ValueError when `current_address + size > flash_size`, otherwise emitting
a record and advancing the cursor. -/
def calculate_partitions (flash_size : Int) (partitions : List (String × Int)) :
    Except PyError (List Partition) :=
  calcGo flash_size 0 partitions

/-- Lowercase hexadecimal digits of a natural number (what Python `%x`
prints for a nonnegative value). -/
def hexDigits (n : Nat) : String := String.mk (Nat.toDigits 16 n)

/-- Python `f"\x7bi:#x\x7d"`: `0x` followed by lowercase hex digits, with a
leading minus sign for negative values. -/
def pyHex (i : Int) : String :=
  if i < 0 then "-0x" ++ hexDigits i.natAbs else "0x" ++ hexDigits i.natAbs

/-- Left-pad a string with zeros to the given length. -/
def padZeros (w : Nat) (s : String) : String :=
  String.mk (List.replicate (w - s.length) (Char.ofNat 48)) ++ s

/-- Python `f"\x7bi:#010x\x7d"`: total width 10, zero-filled after the
`0x` (resp. `-0x`) prefix. -/
def pyHexPad10 (i : Int) : String :=
  if i < 0 then "-0x" ++ padZeros 7 (hexDigits i.natAbs)
  else "0x" ++ padZeros 8 (hexDigits i.natAbs)

/-- Python `f"\x7bi:x\x7d"`: lowercase hex digits without prefix. -/
def pyHexBare (i : Int) : String :=
  if i < 0 then "-" ++ hexDigits i.natAbs else hexDigits i.natAbs

/-- `get_pm_static_name` from partion.py: map partition names to Nordic
Partition Manager naming conventions via a fixed dictionary, defaulting
to the name itself. -/
def get_pm_static_name (partition_name : String) : String :=
  if partition_name = "mcuboot" then "mcuboot"
  else if partition_name = "slot0" then "mcuboot_primary"
  else if partition_name = "slot1" then "mcuboot_secondary"
  else if partition_name = "scratch" then "mcuboot_scratch"
  else if partition_name = "storage" then "settings_storage"
  else partition_name

/-- `get_overlay_label` from partion.py: map partition names to overlay
file labels via a fixed dictionary, defaulting to the name itself. -/
def get_overlay_label (partition_name : String) : String :=
  if partition_name = "mcuboot" then "mcuboot"
  else if partition_name = "slot0" then "image-0"
  else if partition_name = "slot1" then "image-1"
  else if partition_name = "scratch" then "image-scratch"
  else if partition_name = "storage" then "storage"
  else partition_name

/-- The fixed comment header of the generated pm\_static.yml text. -/
def pm_header : String :=
  "# Auto-generated pm_static.yml from partion.py\n" ++
  "# Nordic Partition Manager static configuration\n\n"

/-- The per-partition block appended by the loop of
`update_pm_static_yml`. -/
def pm_partition_block (p : Partition) : String :=
  get_pm_static_name p.name ++ ":\n" ++
  "  address: " ++ pyHex p.start ++ "\n" ++
  "  end_address: " ++ pyHex p.end_ ++ "\n" ++
  "  region: flash_primary\n" ++
  "  size: " ++ pyHex p.size ++ "\n\n"

/-- `update_pm_static_yml` from partion.py, modelled as the text it
writes to pm\_static.yml: the header followed by one block per
partition, accumulated in input order. -/
def update_pm_static_yml (partitions : List Partition) : String :=
  partitions.foldl (fun acc p => acc ++ pm_partition_block p) pm_header

/-- The fixed preamble of the generated app.overlay text, up to and
including the opening of the partitions container node. -/
def overlay_header : String :=
  "// Auto-generated app.overlay from partion.py\n" ++
  "// Device tree overlay for partition configuration\n\n" ++
  "/ \x7b\n" ++
  "\tchosen \x7b\n" ++
  "\t\tzephyr,code-partition = &slot0_partition;\n" ++
  "\t\x7d;\n" ++
  "\x7d;\n\n" ++
  "&flash0 \x7b\n" ++
  "\tpartitions \x7b\n" ++
  "\t\tcompatible = \"fixed-partitions\";\n" ++
  "\t\t#address-cells = <1>;\n" ++
  "\t\t#size-cells = <1>;\n\n"

/-- The special properties appended for known partition types inside
`update_app_overlay` (the if/elif chain of the loop body). -/
def overlay_special_props (name : String) : String :=
  if name = "mcuboot" then "\t\t\tread-only;\n"
  else if name = "slot0" then "\t\t\t// Primary application slot\n"
  else if name = "slot1" then "\t\t\t// Secondary application slot\n"
  else if name = "scratch" then "\t\t\t// MCUboot scratch area\n"
  else if name = "storage" then "\t\t\t// Settings storage\n"
  else ""

/-- The per-partition device-tree node appended by the loop of
`update_app_overlay`. -/
def overlay_partition_node (p : Partition) : String :=
  "\t\t" ++ p.name ++ "_partition: partition@" ++ pyHexBare p.start ++ " \x7b\n" ++
  "\t\t\tlabel = \"" ++ get_overlay_label p.name ++ "\";\n" ++
  "\t\t\treg = <" ++ pyHexPad10 p.start ++ " " ++ pyHexPad10 p.size ++ ">;\n" ++
  overlay_special_props p.name ++
  "\t\t\x7d;\n\n"

/-- The fixed closing text of the generated app.overlay. -/
def overlay_footer : String := "\t\x7d;\n" ++ "\x7d;\n"

/-- `update_app_overlay` from partion.py, modelled as the text it writes
to app.overlay: the preamble, one node per partition in input order, and
the closing braces. -/
def update_app_overlay (partitions : List Partition) : String :=
  (partitions.foldl (fun acc p => acc ++ overlay_partition_node p) overlay_header) ++
  overlay_footer

/-- Python `line.strip()`: remove leading and trailing whitespace. -/
def pyStrip (s : String) : String :=
  String.mk (((s.data.dropWhile Char.isWhitespace).reverse.dropWhile Char.isWhitespace).reverse)

/-- Python `line.startswith(p)`. -/
def pyStartsWith (s p : String) : Bool := p.data.isPrefixOf s.data

/-- Python `c in line` for a single character. -/
def strContainsCh (s : String) (c : Char) : Bool := s.data.contains c

/-- Splitting a text into lines at newline characters, as iterating a
file and stripping each line sees them. -/
def splitNlGo (acc : List Char) : List Char → List String
  | [] => [String.mk acc.reverse]
  | c :: cs =>
    if c = '\n' then String.mk acc.reverse :: splitNlGo [] cs else splitNlGo (c :: acc) cs

/-- The lines of a string, split at newlines. -/
def splitLinesStr (s : String) : List String := splitNlGo [] s.data

/-- Python `line.rstrip(&#58;)`: remove all trailing colon characters. -/
def rstripColon (s : String) : String :=
  String.mk ((s.data.reverse.dropWhile (fun c => c = ':')).reverse)

/-- Python dict assignment `d[k] = v` on an insertion-ordered dictionary
modelled as an association list: replace in place if the key exists,
else append at the end. -/
def updateDict {β : Type} : List (String × β) → String → β → List (String × β)
  | [], k, v => [(k, v)]
  | (k0, v0) :: rest, k, v =>
    if k0 = k then (k, v) :: rest else (k0, v0) :: updateDict rest k v

/-- Python dict lookup `d[k]` on the association-list model. -/
def lookupD {β : Type} : List (String × β) → String → Option β
  | [], _ => none
  | (k0, v0) :: rest, k => if k0 = k then some v0 else lookupD rest k

/-- Loop for `splitFirstColon`, carrying the reversed prefix read so
far. -/
def splitFirstColonGo (before : List Char) : List Char → String × String
  | [] => (String.mk before.reverse, "")
  | c :: cs =>
    if c = ':' then (String.mk before.reverse, String.mk cs)
    else splitFirstColonGo (c :: before) cs

/-- Python `line.split(&#58;, 1)`: split at the first colon, returning the
part before and the part after (used only on lines containing a colon). -/
def splitFirstColon (line : String) : String × String :=
  splitFirstColonGo [] line.data

/-- Hex digit test for the model of Python `int(value, 16)`. -/
def isHexDigitCh (c : Char) : Bool :=
  (48 ≤ c.toNat && c.toNat ≤ 57) || (97 ≤ c.toNat && c.toNat ≤ 102) ||
  (65 ≤ c.toNat && c.toNat ≤ 70)

/-- Value of a hex digit character. -/
def hexDigitVal (c : Char) : Nat :=
  if c.toNat ≤ 57 then c.toNat - 48
  else if c.toNat ≤ 70 then c.toNat - 55
  else c.toNat - 87

/-- Accumulator loop for parsing a nonempty hex digit string. -/
def parseHexNatGo (acc : Nat) : List Char → Option Nat
  | [] => some acc
  | c :: cs => if isHexDigitCh c then parseHexNatGo (acc * 16 + hexDigitVal c) cs else none

/-- Parse a nonempty list of hex digits; `none` on empty or invalid
input (Python raises ValueError there). -/
def parseHexNat : List Char → Option Nat
  | [] => none
  | cs => parseHexNatGo 0 cs

/-- Drop an optional `0x` or `0X` prefix, as Python `int(value, 16)`
accepts. -/
def hexDrop0x : List Char → List Char
  | '0' :: 'x' :: rest => rest
  | '0' :: 'X' :: rest => rest
  | cs => cs

/-- Model of Python `int(value, 16)` on an already-stripped string:
optional sign, optional `0x`/`0X` prefix, then hex digits; `none` when
Python would raise ValueError. -/
def parseHex (s : String) : Option Int :=
  match s.data with
  | [] => none
  | '-' :: rest => (parseHexNat (hexDrop0x rest)).map (fun n => -(n : Int))
  | '+' :: rest => (parseHexNat (hexDrop0x rest)).map (fun n => (n : Int))
  | cs => (parseHexNat (hexDrop0x cs)).map (fun n => (n : Int))

/-- The line loop of `analyze_partition_usage` from analyze\_flash.py,
carrying the partitions dictionary and the `current_partition` variable
(`none` models Python None, and an empty string is falsy in the elif
test).  Returns `none` when `int(value, 16)` raises, as the enclosing
try/except then returns None. -/
def pmParseLines : List String → List (String × List (String × Int)) → Option String →
    Option (List (String × List (String × Int)))
  | [], parts, _ => some parts
  | raw :: rest, parts, current =>
    let line := pyStrip raw
    if line != "" && !(pyStartsWith line "#") then
      if strContainsCh line ':' && !(pyStartsWith line " ") then
        pmParseLines rest (updateDict parts (rstripColon line) []) (some (rstripColon line))
      else
        match current with
        | some cur =>
          if cur != "" && strContainsCh line ':' then
            let key := pyStrip (splitFirstColon line).1
            let value := pyStrip (splitFirstColon line).2
            if key = "size" || key = "address" || key = "end_address" then
              match parseHex value with
              | some v =>
                pmParseLines rest
                  (updateDict parts cur (updateDict ((lookupD parts cur).getD []) key v))
                  current
              | none => none
            else pmParseLines rest parts current
          else pmParseLines rest parts current
        | none => pmParseLines rest parts current
    else pmParseLines rest parts current

/-- `analyze_partition_usage` from analyze\_flash.py, modelled over the
text of pm\_static.yml rather than the file handle: parse the lines into
a dictionary of partitions with their hex-valued fields. -/
def analyze_partition_usage (content : String) : Option (List (String × List (String × Int))) :=
  pmParseLines (splitLinesStr content) [] none

/-- `FLASH_SIZE` from main: the nRF52840 1MB flash. -/
def FLASH_SIZE : Int := 1024 * 1024

/-- `mcuboot` size constant from main. -/
def main_mcuboot : Int := 110 * 1024

/-- `storage` size constant from main. -/
def main_storage : Int := 76 * 1024

/-- `scratch` size constant from main. -/
def main_scratch : Int := 1 * 1024

/-- `slot0_partition` from main: half of the remaining flash, with
Python floor division. -/
def slot0_partition : Int :=
  Int.fdiv (FLASH_SIZE - main_mcuboot - main_storage - main_scratch) 2

/-- `slot1_partition` from main: equal to `slot0_partition`. -/
def slot1_partition : Int := slot0_partition

/-- The `partitions` request list built in main. -/
def main_partitions : List (String × Int) :=
  [("mcuboot", main_mcuboot),
   ("slot0", slot0_partition),
   ("slot1", slot1_partition),
   ("scratch", main_scratch),
   ("storage", main_storage)]

/-- Sum of the sizes of the first `i` requests: the value of the cursor
after processing them. -/
def partialSum (reqs : List (String × Int)) (i : Nat) : Int :=
  ((reqs.take i).map Prod.snd).sum

/-- The record list `calculate_partitions` produces on success, starting
from cursor `c`. -/
def buildRecs (c : Int) : List (String × Int) → List Partition
  | [] => []
  | (n, s) :: rest => ⟨n, c, c + s, s⟩ :: buildRecs (c + s) rest

/-- Concatenation of the rendered pieces of a list, head first. -/
def concatStr {α : Type} (f : α → String) : List α → String
  | [] => ""
  | x :: xs => f x ++ concatStr f xs

end Partion

namespace Partion

theorem buildRecs_length (reqs : List (String × Int)) :
    ∀ c : Int, (buildRecs c reqs).length = reqs.length := by
  induction reqs with
  | nil => intro c; rfl
  | cons hd tl ih =>
    intro c
    obtain ⟨n, s⟩ := hd
    simp [buildRecs, ih]

theorem partialSum_zero (reqs : List (String × Int)) : partialSum reqs 0 = 0 := rfl

theorem partialSum_cons_succ (n : String) (s : Int) (rest : List (String × Int)) (i : Nat) :
    partialSum ((n, s) :: rest) (i + 1) = s + partialSum rest i := by
  simp [partialSum]

theorem partialSum_length (reqs : List (String × Int)) :
    partialSum reqs reqs.length = (reqs.map Prod.snd).sum := by
  simp [partialSum]

theorem partialSum_nonneg (reqs : List (String × Int)) (h : ∀ p ∈ reqs, 0 ≤ p.2) (i : Nat) :
    0 ≤ partialSum reqs i := by
  refine List.sum_nonneg ?_
  intro x hx
  obtain ⟨p, hp, rfl⟩ := List.mem_map.mp hx
  exact h p (List.mem_of_mem_take hp)

theorem partialSum_mono (reqs : List (String × Int)) (h : ∀ p ∈ reqs, 0 ≤ p.2) :
    ∀ i j : Nat, i ≤ j → partialSum reqs i ≤ partialSum reqs j := by
  induction reqs with
  | nil => intro i j _; simp [partialSum]
  | cons hd tl ih =>
    intro i j hij
    obtain ⟨n, s⟩ := hd
    cases i with
    | zero =>
      rw [partialSum_zero]
      refine List.sum_nonneg ?_
      intro x hx
      obtain ⟨p, hp, rfl⟩ := List.mem_map.mp hx
      exact h p (List.mem_of_mem_take hp)
    | succ i0 =>
      cases j with
      | zero => omega
      | succ j0 =>
        rw [partialSum_cons_succ, partialSum_cons_succ]
        have htl : ∀ p ∈ tl, 0 ≤ p.2 := fun p hp => h p (List.mem_cons_of_mem _ hp)
        have := ih htl i0 j0 (by omega)
        omega

theorem partialSum_succ_get (reqs : List (String × Int)) :
    ∀ (i : Nat) (hi : i < reqs.length),
      partialSum reqs (i + 1) = partialSum reqs i + (reqs.get ⟨i, hi⟩).2 := by
  induction reqs with
  | nil => intro i hi; exact absurd hi (by simp)
  | cons hd tl ih =>
    intro i hi
    obtain ⟨n, s⟩ := hd
    cases i with
    | zero => simp [partialSum_cons_succ, partialSum_zero]
    | succ i0 =>
      have hi0 : i0 < tl.length := by simpa using hi
      rw [partialSum_cons_succ, partialSum_cons_succ, ih i0 hi0]
      simp [List.get]
      omega

theorem calcGo_ok (fs : Int) (reqs : List (String × Int)) :
    ∀ c : Int, (∀ p ∈ reqs, 0 ≤ p.2) → c + (reqs.map Prod.snd).sum ≤ fs →
      calcGo fs c reqs = Except.ok (buildRecs c reqs) := by
  induction reqs with
  | nil => intro c _ _; rfl
  | cons hd tl ih =>
    intro c hnn hsum
    obtain ⟨n, s⟩ := hd
    have hs : 0 ≤ s := hnn (n, s) (List.mem_cons_self _ _)
    have htl : ∀ p ∈ tl, 0 ≤ p.2 := fun p hp => hnn p (List.mem_cons_of_mem _ hp)
    have hsumtl : 0 ≤ (tl.map Prod.snd).sum := by
      refine List.sum_nonneg ?_
      intro x hx
      obtain ⟨p, hp, rfl⟩ := List.mem_map.mp hx
      exact htl p hp
    have hsum0 : (c + s) + (tl.map Prod.snd).sum ≤ fs := by
      have : ((n, s) :: tl).map Prod.snd = s :: tl.map Prod.snd := rfl
      rw [this, List.sum_cons] at hsum
      omega
    have hguard : ¬ c + s > fs := by omega
    simp only [calcGo, if_neg hguard, ih (c + s) htl hsum0]
    rfl

theorem buildRecs_get (reqs : List (String × Int)) :
    ∀ (c : Int) (i : Nat) (hi : i < reqs.length) (hi2 : i < (buildRecs c reqs).length),
      (buildRecs c reqs).get ⟨i, hi2⟩ =
        ⟨(reqs.get ⟨i, hi⟩).1, c + partialSum reqs i, c + partialSum reqs (i + 1),
          (reqs.get ⟨i, hi⟩).2⟩ := by
  induction reqs with
  | nil => intro c i hi _; exact absurd hi (by simp)
  | cons hd tl ih =>
    intro c i hi hi2
    obtain ⟨n, s⟩ := hd
    cases i with
    | zero =>
      simp [buildRecs, List.get, partialSum_zero, partialSum_cons_succ]
    | succ i0 =>
      have hi0 : i0 < tl.length := by simpa using hi
      have hi02 : i0 < (buildRecs (c + s) tl).length := by
        rw [buildRecs_length]; exact hi0
      have := ih (c + s) i0 hi0 hi02
      simp only [buildRecs, List.get] at this ⊢
      rw [this]
      simp [partialSum_cons_succ, List.get]
      constructor
      · omega
      · omega

theorem foldl_append_concatStr {α : Type} (f : α → String) (l : List α) :
    ∀ init : String, l.foldl (fun acc x => acc ++ f x) init = init ++ concatStr f l := by
  induction l with
  | nil => intro init; simp [concatStr, List.foldl]
  | cons x xs ih =>
    intro init
    simp only [List.foldl, concatStr, ih (init ++ f x), String.append_assoc]

/-- C1: for every request sequence of nonnegative sizes whose sizes sum
to at most the capacity, `calculate_partitions` succeeds and returns one
record per request in input order, with matching names and sizes,
`end = start + size`, the first start 0, each start equal to the
previous end (hence non-overlapping), and the last end at most the
capacity. -/
theorem c1_layout_invariants (capacity : Int) (requests : List (String × Int))
    (hnn : ∀ p ∈ requests, 0 ≤ p.2)
    (hsum : (requests.map Prod.snd).sum ≤ capacity) :
    ∃ records, calculate_partitions capacity requests = Except.ok records ∧
      records.length = requests.length ∧
      (∀ (i : Nat) (hr : i < records.length) (hq : i < requests.length),
        (records.get ⟨i, hr⟩).name = (requests.get ⟨i, hq⟩).1 ∧
        (records.get ⟨i, hr⟩).size = (requests.get ⟨i, hq⟩).2 ∧
        (records.get ⟨i, hr⟩).end_ =
          (records.get ⟨i, hr⟩).start + (records.get ⟨i, hr⟩).size) ∧
      (∀ h0 : 0 < records.length, (records.get ⟨0, h0⟩).start = 0) ∧
      (∀ (i : Nat) (h1 : i + 1 < records.length),
        (records.get ⟨i, Nat.lt_of_succ_lt h1⟩).end_ = (records.get ⟨i + 1, h1⟩).start) ∧
      (∀ (i j : Nat) (hi : i < records.length) (hj : j < records.length), i < j →
        (records.get ⟨i, hi⟩).end_ ≤ (records.get ⟨j, hj⟩).start) ∧
      (∀ h0 : 0 < records.length,
        (records.get ⟨records.length - 1, Nat.sub_lt h0 Nat.one_pos⟩).end_ ≤ capacity) := by
  refine ⟨buildRecs 0 requests, ?_, buildRecs_length requests 0, ?_, ?_, ?_, ?_, ?_⟩
  · exact calcGo_ok capacity requests 0 hnn (by omega)
  · intro i hr hq
    rw [buildRecs_get requests 0 i hq hr]
    refine ⟨rfl, rfl, ?_⟩
    simp only
    rw [partialSum_succ_get requests i hq]
    omega
  · intro h0
    have hq : 0 < requests.length := by rwa [buildRecs_length] at h0
    rw [buildRecs_get requests 0 0 hq h0]
    simp [partialSum_zero]
  · intro i h1
    have hq1 : i + 1 < requests.length := by rwa [buildRecs_length] at h1
    rw [buildRecs_get requests 0 i (Nat.lt_of_succ_lt hq1) (Nat.lt_of_succ_lt h1),
      buildRecs_get requests 0 (i + 1) hq1 h1]
  · intro i j hi hj hij
    have hqi : i < requests.length := by rwa [buildRecs_length] at hi
    have hqj : j < requests.length := by rwa [buildRecs_length] at hj
    rw [buildRecs_get requests 0 i hqi hi, buildRecs_get requests 0 j hqj hj]
    simp only
    have := partialSum_mono requests hnn (i + 1) j (by omega)
    omega
  · intro h0
    have hq : 0 < requests.length := by rwa [buildRecs_length] at h0
    have hlen : (buildRecs 0 requests).length - 1 = requests.length - 1 := by
      rw [buildRecs_length]
    have hqlast : requests.length - 1 < requests.length := Nat.sub_lt hq Nat.one_pos
    have hrlast : (buildRecs 0 requests).length - 1 < (buildRecs 0 requests).length :=
      Nat.sub_lt h0 Nat.one_pos
    have hget := buildRecs_get requests 0 (requests.length - 1) hqlast (by omega)
    have hcast : (⟨(buildRecs 0 requests).length - 1, hrlast⟩ :
        Fin (buildRecs 0 requests).length) = ⟨requests.length - 1, by omega⟩ := by
      apply Fin.ext
      simpa using hlen
    rw [hcast, hget]
    simp only
    have hs : requests.length - 1 + 1 = requests.length := by omega
    rw [hs, partialSum_length]
    omega

/-- Witness for C1 at a concrete input: capacity 10 and two requests of
sizes 4 and 6. -/
theorem c1_layout_invariants_witness :
    (∀ p ∈ ([("a", 4), ("b", 6)] : List (String × Int)), 0 ≤ p.2) ∧
    ((([("a", 4), ("b", 6)] : List (String × Int)).map Prod.snd).sum ≤ (10 : Int)) ∧
    (∃ records, calculate_partitions 10 [("a", 4), ("b", 6)] = Except.ok records ∧
      records.length = ([("a", 4), ("b", 6)] : List (String × Int)).length ∧
      (∀ (i : Nat) (hr : i < records.length)
          (hq : i < ([("a", 4), ("b", 6)] : List (String × Int)).length),
        (records.get ⟨i, hr⟩).name =
          (([("a", 4), ("b", 6)] : List (String × Int)).get ⟨i, hq⟩).1 ∧
        (records.get ⟨i, hr⟩).size =
          (([("a", 4), ("b", 6)] : List (String × Int)).get ⟨i, hq⟩).2 ∧
        (records.get ⟨i, hr⟩).end_ =
          (records.get ⟨i, hr⟩).start + (records.get ⟨i, hr⟩).size) ∧
      (∀ h0 : 0 < records.length, (records.get ⟨0, h0⟩).start = 0) ∧
      (∀ (i : Nat) (h1 : i + 1 < records.length),
        (records.get ⟨i, Nat.lt_of_succ_lt h1⟩).end_ = (records.get ⟨i + 1, h1⟩).start) ∧
      (∀ (i j : Nat) (hi : i < records.length) (hj : j < records.length), i < j →
        (records.get ⟨i, hi⟩).end_ ≤ (records.get ⟨j, hj⟩).start) ∧
      (∀ h0 : 0 < records.length,
        (records.get ⟨records.length - 1, Nat.sub_lt h0 Nat.one_pos⟩).end_ ≤ 10)) :=
  ⟨by decide, by decide, c1_layout_invariants 10 [("a", 4), ("b", 6)] (by decide) (by decide)⟩

theorem calcGo_error (fs : Int) (reqs : List (String × Int)) :
    ∀ c : Int, (∀ p ∈ reqs, 0 ≤ p.2) → c ≤ fs → c + (reqs.map Prod.snd).sum > fs →
      ∃ k, ∃ hk : k < reqs.length,
        (∀ j, j < k → c + partialSum reqs (j + 1) ≤ fs) ∧
        c + partialSum reqs (k + 1) > fs ∧
        calcGo fs c reqs =
          Except.error (PyError.valueError (errMsg (reqs.get ⟨k, hk⟩).1)) := by
  induction reqs with
  | nil =>
    intro c _ hle hgt
    simp only [List.map_nil, List.sum_nil] at hgt
    omega
  | cons hd tl ih =>
    intro c hnn hle hgt
    obtain ⟨n, s⟩ := hd
    by_cases hg : c + s > fs
    · refine ⟨0, by simp, ?_, ?_, ?_⟩
      · intro j hj; omega
      · rw [partialSum_cons_succ, partialSum_zero]; omega
      · simp [calcGo, if_pos hg, List.get]
    · have htl : ∀ p ∈ tl, 0 ≤ p.2 := fun p hp => hnn p (List.mem_cons_of_mem _ hp)
      have hsum0 : (c + s) + (tl.map Prod.snd).sum > fs := by
        have : ((n, s) :: tl).map Prod.snd = s :: tl.map Prod.snd := rfl
        rw [this, List.sum_cons] at hgt
        omega
      obtain ⟨k, hk, hbelow, habove, heq⟩ := ih (c + s) htl (by omega) hsum0
      refine ⟨k + 1, by simpa using Nat.succ_lt_succ hk, ?_, ?_, ?_⟩
      · intro j hj
        cases j with
        | zero => rw [partialSum_cons_succ, partialSum_zero]; omega
        | succ j0 =>
          rw [partialSum_cons_succ]
          have := hbelow j0 (by omega)
          omega
      · rw [partialSum_cons_succ]
        omega
      · simp only [calcGo, if_neg hg, heq]
        rfl

/-- C2 counterexample: with capacity -1 and no requests, the sizes sum
to 0 which exceeds the capacity, yet `calculate_partitions` succeeds
with the empty layout instead of failing. -/
theorem c2_counterexample :
    ((([] : List (String × Int)).map Prod.snd).sum > (-1 : Int)) ∧
    calculate_partitions (-1) ([] : List (String × Int)) = Except.ok [] := by
  exact ⟨by decide, by decide⟩

/-- C2 (amended to nonempty request sequences): for every nonempty
request sequence of nonnegative sizes whose sizes sum to more than the
capacity, `calculate_partitions` fails with the capacity error naming
the first request at which the running cumulative sum exceeds the
capacity, and returns no partial layout. -/
theorem c2_capacity_exceeded (capacity : Int) (requests : List (String × Int))
    (hne : requests ≠ [])
    (hnn : ∀ p ∈ requests, 0 ≤ p.2)
    (hsum : (requests.map Prod.snd).sum > capacity) :
    ∃ k, ∃ hk : k < requests.length,
      (∀ j, j < k → partialSum requests (j + 1) ≤ capacity) ∧
      partialSum requests (k + 1) > capacity ∧
      calculate_partitions capacity requests =
        Except.error (PyError.valueError (errMsg (requests.get ⟨k, hk⟩).1)) := by
  by_cases hcap : 0 ≤ capacity
  · obtain ⟨k, hk, h1, h2, h3⟩ := calcGo_error capacity requests 0 hnn hcap (by omega)
    refine ⟨k, hk, ?_, ?_, h3⟩
    · intro j hj
      have := h1 j hj
      omega
    · omega
  · obtain ⟨hd, tl, rfl⟩ := List.exists_cons_of_ne_nil hne
    obtain ⟨n, s⟩ := hd
    have hs : 0 ≤ s := hnn (n, s) (List.mem_cons_self _ _)
    refine ⟨0, by simp, ?_, ?_, ?_⟩
    · intro j hj; omega
    · rw [partialSum_cons_succ, partialSum_zero]; omega
    · have hg : (0 : Int) + s > capacity := by omega
      show calcGo capacity 0 ((n, s) :: tl) =
        Except.error (PyError.valueError (errMsg ((((n, s) :: tl)).get ⟨0, by simp⟩).1))
      simp only [calcGo]
      rw [if_pos hg]
      rfl

/-- Witness for C2 at the concrete example of the claim: capacity 1024
with requests a and b of 600 bytes each fails naming b, the first
request at which the cumulative sum 1200 exceeds 1024. -/
theorem c2_capacity_exceeded_witness :
    (([("a", 600), ("b", 600)] : List (String × Int)) ≠ []) ∧
    (∀ p ∈ ([("a", 600), ("b", 600)] : List (String × Int)), 0 ≤ p.2) ∧
    ((([("a", 600), ("b", 600)] : List (String × Int)).map Prod.snd).sum > (1024 : Int)) ∧
    calculate_partitions 1024 [("a", 600), ("b", 600)] =
      Except.error (PyError.valueError (errMsg "b")) ∧
    (∃ k, ∃ hk : k < ([("a", 600), ("b", 600)] : List (String × Int)).length,
      (∀ j, j < k → partialSum [("a", 600), ("b", 600)] (j + 1) ≤ 1024) ∧
      partialSum [("a", 600), ("b", 600)] (k + 1) > 1024 ∧
      calculate_partitions 1024 [("a", 600), ("b", 600)] =
        Except.error (PyError.valueError
          (errMsg (([("a", 600), ("b", 600)] : List (String × Int)).get ⟨k, hk⟩).1))) :=
  ⟨by decide, by decide, by decide, by decide,
    c2_capacity_exceeded 1024 [("a", 600), ("b", 600)] (by decide) (by decide) (by decide)⟩

theorem calcGo_error_shape (fs : Int) (reqs : List (String × Int)) :
    ∀ (c : Int) (e : PyError), calcGo fs c reqs = Except.error e →
      ∃ name, name ∈ reqs.map Prod.fst ∧ e = PyError.valueError (errMsg name) := by
  induction reqs with
  | nil =>
    intro c e h
    exact absurd h (by simp [calcGo])
  | cons hd tl ih =>
    intro c e h
    obtain ⟨n, s⟩ := hd
    by_cases hg : c + s > fs
    · simp only [calcGo, if_pos hg, Except.error.injEq] at h
      exact ⟨n, by simp, h.symm⟩
    · simp only [calcGo, if_neg hg] at h
      cases hrec : calcGo fs (c + s) tl with
      | error e2 =>
        rw [hrec] at h
        simp only [Except.error.injEq] at h
        obtain ⟨name, hm, he⟩ := ih (c + s) e2 hrec
        exact ⟨name, by simp [List.mem_map] at hm ⊢; tauto, h ▸ he⟩
      | ok tail =>
        rw [hrec] at h
        exact absurd h (by simp)

/-- C3 counterexample: at capacity 1024 with requests a and b of 600
bytes each, the error raised is not an OverflowError. -/
theorem c3_counterexample :
    ¬ ∃ msg, calculate_partitions 1024 [("a", 600), ("b", 600)] =
        Except.error (PyError.overflowError msg) := by
  intro hex
  obtain ⟨msg, h⟩ := hex
  have h2 : calculate_partitions 1024 [("a", 600), ("b", 600)] =
      Except.error (PyError.valueError (errMsg "b")) := by decide
  rw [h2] at h
  injection h with h3
  exact PyError.noConfusion h3

/-- C3 (amended): when `calculate_partitions` fails, the error is a
ValueError carrying the fixed message that names the offending
partition; no overflow amount appears in it. -/
theorem c3_error_is_value_error (fs : Int) (reqs : List (String × Int)) (e : PyError)
    (h : calculate_partitions fs reqs = Except.error e) :
    ∃ name, name ∈ reqs.map Prod.fst ∧ e = PyError.valueError (errMsg name) :=
  calcGo_error_shape fs reqs 0 e h

/-- Witness for C3 at the concrete failing input of the claim. -/
theorem c3_error_is_value_error_witness :
    (calculate_partitions 1024 [("a", 600), ("b", 600)] =
      Except.error (PyError.valueError (errMsg "b"))) ∧
    ∃ name, name ∈ ([("a", 600), ("b", 600)] : List (String × Int)).map Prod.fst ∧
      PyError.valueError (errMsg "b") = PyError.valueError (errMsg name) :=
  ⟨by decide, c3_error_is_value_error 1024 [("a", 600), ("b", 600)] _ (by decide)⟩

/-- C4 counterexample: the request sizes of the claimed example sum to
1,051,648, which exceeds the capacity 1,048,576, so
`calculate_partitions` fails naming storage instead of succeeding with
the claimed records. -/
theorem c4_counterexample :
    ((([("mcuboot", 112640), ("slot0", 430080), ("slot1", 430080), ("scratch", 1024),
        ("storage", 77824)] : List (String × Int)).map Prod.snd).sum = (1051648 : Int)) ∧
    calculate_partitions 1048576
      [("mcuboot", 112640), ("slot0", 430080), ("slot1", 430080), ("scratch", 1024),
       ("storage", 77824)] =
      Except.error (PyError.valueError (errMsg "storage")) := by
  exact ⟨by decide, by decide⟩

/-- C4 (amended): with capacity 1,048,576 and the request sizes that
actually match the claimed address ranges — slot0 and slot1 of 442,368
bytes and storage of 50,176 bytes — `calculate_partitions` succeeds
with no overflow and returns exactly the claimed records. -/
theorem c4_example_layout :
    calculate_partitions 1048576
      [("mcuboot", 112640), ("slot0", 442368), ("slot1", 442368), ("scratch", 1024),
       ("storage", 50176)] =
      Except.ok
        [⟨"mcuboot", 0x0, 0x1B800, 112640⟩,
         ⟨"slot0", 0x1B800, 0x87800, 442368⟩,
         ⟨"slot1", 0x87800, 0xF3800, 442368⟩,
         ⟨"scratch", 0xF3800, 0xF3C00, 1024⟩,
         ⟨"storage", 0xF3C00, 0x100000, 50176⟩] := by decide

/-- C5: the text emitted for the record mcuboot [0, 0x1B800) and what
`analyze_partition_usage` recovers from it: because the parser strips
each line before testing for leading whitespace, every indented field
line is taken for a partition header, and no (name, start, end, size)
tuple is recovered — the address, end\_address and size fields of
mcuboot all end up as spurious top-level keys with empty field maps. -/
theorem c5_roundtrip_code_behavior :
    update_pm_static_yml [⟨"mcuboot", 0, 112640, 112640⟩] =
      "# Auto-generated pm_static.yml from partion.py\n" ++
      "# Nordic Partition Manager static configuration\n\n" ++
      "mcuboot:\n  address: 0x0\n  end_address: 0x1b800\n" ++
      "  region: flash_primary\n  size: 0x1b800\n\n" ∧
    analyze_partition_usage (update_pm_static_yml [⟨"mcuboot", 0, 112640, 112640⟩]) =
      some [("mcuboot", []), ("address: 0x0", []), ("end_address: 0x1b800", []),
            ("region: flash_primary", []), ("size: 0x1b800", [])] := by
  exact ⟨by decide, by decide⟩

/-- C6: the partition-manager emitter maps names through the fixed
table (mcuboot, slot0, slot1, scratch, storage to their Nordic names),
passes every unmapped name through unchanged, and emits the fixed
header followed by one block per record in input order, each block
holding the mapped name, the address in hex, the end address in hex,
the region identifier flash\_primary, and the size in hex. -/
theorem c6_pm_emitter :
    get_pm_static_name "mcuboot" = "mcuboot" ∧
    get_pm_static_name "slot0" = "mcuboot_primary" ∧
    get_pm_static_name "slot1" = "mcuboot_secondary" ∧
    get_pm_static_name "scratch" = "mcuboot_scratch" ∧
    get_pm_static_name "storage" = "settings_storage" ∧
    (∀ n : String, n ∉ (["mcuboot", "slot0", "slot1", "scratch", "storage"] : List String) →
      get_pm_static_name n = n) ∧
    (∀ ps : List Partition, update_pm_static_yml ps =
      pm_header ++ concatStr (fun p =>
        get_pm_static_name p.name ++ ":\n" ++
        "  address: " ++ pyHex p.start ++ "\n" ++
        "  end_address: " ++ pyHex p.end_ ++ "\n" ++
        "  region: flash_primary\n" ++
        "  size: " ++ pyHex p.size ++ "\n\n") ps) := by
  refine ⟨rfl, rfl, rfl, rfl, rfl, ?_, ?_⟩
  · intro n hn
    simp only [List.mem_cons, List.not_mem_nil, or_false, not_or] at hn
    obtain ⟨h1, h2, h3, h4, h5⟩ := hn
    simp [get_pm_static_name, h1, h2, h3, h4, h5]
  · intro ps
    exact foldl_append_concatStr pm_partition_block ps pm_header

/-- Witness for C6: the unmapped name app passes through unchanged. -/
theorem c6_pm_emitter_witness :
    ("app" ∉ (["mcuboot", "slot0", "slot1", "scratch", "storage"] : List String)) ∧
    get_pm_static_name "app" = "app" :=
  ⟨by decide, c6_pm_emitter.2.2.2.2.2.1 "app" (by decide)⟩

/-- C7: each overlay node is named `name_partition`, carries the label
of the second lookup table (slot0 to image-0, slot1 to image-1, scratch
to image-scratch, storage to storage, everything else unchanged), a reg
property with start and size as zero-padded hex 32-bit values, and the
name-specific extra property, which is the read-only marker exactly for
mcuboot and a descriptive comment for slot0, slot1, scratch and
storage. -/
theorem c7_overlay_nodes :
    get_overlay_label "slot0" = "image-0" ∧
    get_overlay_label "slot1" = "image-1" ∧
    get_overlay_label "scratch" = "image-scratch" ∧
    get_overlay_label "storage" = "storage" ∧
    (∀ n : String, n ∉ (["slot0", "slot1", "scratch", "storage"] : List String) →
      get_overlay_label n = n) ∧
    (∀ p : Partition, overlay_partition_node p =
      "\t\t" ++ p.name ++ "_partition: partition@" ++ pyHexBare p.start ++ " \x7b\n" ++
      "\t\t\tlabel = \"" ++ get_overlay_label p.name ++ "\";\n" ++
      "\t\t\treg = <" ++ pyHexPad10 p.start ++ " " ++ pyHexPad10 p.size ++ ">;\n" ++
      overlay_special_props p.name ++
      "\t\t\x7d;\n\n") ∧
    (∀ n : String, overlay_special_props n = "\t\t\tread-only;\n" ↔ n = "mcuboot") ∧
    overlay_special_props "slot0" = "\t\t\t// Primary application slot\n" ∧
    overlay_special_props "slot1" = "\t\t\t// Secondary application slot\n" ∧
    overlay_special_props "scratch" = "\t\t\t// MCUboot scratch area\n" ∧
    overlay_special_props "storage" = "\t\t\t// Settings storage\n" ∧
    (∀ ps : List Partition, update_app_overlay ps =
      overlay_header ++ concatStr overlay_partition_node ps ++ overlay_footer) := by
  refine ⟨rfl, rfl, rfl, rfl, ?_, fun p => rfl, ?_, rfl, rfl, rfl, rfl, ?_⟩
  · intro n hn
    simp only [List.mem_cons, List.not_mem_nil, or_false, not_or] at hn
    obtain ⟨h1, h2, h3, h4⟩ := hn
    by_cases hmb : n = "mcuboot"
    · subst hmb; rfl
    · simp [get_overlay_label, hmb, h1, h2, h3, h4]
  · intro n
    constructor
    · intro h
      by_contra hne
      rw [overlay_special_props, if_neg hne] at h
      split_ifs at h <;> exact absurd h (by decide)
    · intro h
      subst h
      rfl
  · intro ps
    show (ps.foldl (fun acc p => acc ++ overlay_partition_node p) overlay_header) ++
      overlay_footer = _
    rw [foldl_append_concatStr overlay_partition_node ps overlay_header]

/-- Witness for C7: the unmapped name mcuboot keeps its label. -/
theorem c7_overlay_nodes_witness :
    ("mcuboot" ∉ (["slot0", "slot1", "scratch", "storage"] : List String)) ∧
    get_overlay_label "mcuboot" = "mcuboot" :=
  ⟨by decide, c7_overlay_nodes.2.2.2.2.1 "mcuboot" (by decide)⟩

/-- C8: the empty request sequence yields the empty record sequence for
every capacity, and on the empty record sequence both emitters produce
only their fixed preamble and container text with no per-partition
blocks or child nodes. -/
theorem c8_empty_requests :
    (∀ fs : Int, calculate_partitions fs [] = Except.ok []) ∧
    update_pm_static_yml [] =
      "# Auto-generated pm_static.yml from partion.py\n" ++
      "# Nordic Partition Manager static configuration\n\n" ∧
    update_app_overlay [] = overlay_header ++ overlay_footer ∧
    update_app_overlay [] =
      "// Auto-generated app.overlay from partion.py\n" ++
      "// Device tree overlay for partition configuration\n\n" ++
      "/ \x7b\n\tchosen \x7b\n\t\tzephyr,code-partition = &slot0_partition;\n" ++
      "\t\x7d;\n\x7d;\n\n" ++
      "&flash0 \x7b\n\tpartitions \x7b\n\t\tcompatible = \"fixed-partitions\";\n" ++
      "\t\t#address-cells = <1>;\n\t\t#size-cells = <1>;\n\n" ++
      "\t\x7d;\n\x7d;\n" := by
  exact ⟨fun fs => rfl, by decide, by decide, by decide⟩

/-- C9: the built-in default configuration of main tiles the flash
exactly: the derived slot size is 428,544 bytes, the five sizes sum to
the flash size, the layout computation succeeds, and the last record
ends exactly at 0x100000. -/
theorem c9_default_configuration :
    FLASH_SIZE = 1048576 ∧
    main_mcuboot = 112640 ∧
    main_storage = 77824 ∧
    main_scratch = 1024 ∧
    slot0_partition = Int.fdiv (FLASH_SIZE - main_mcuboot - main_storage - main_scratch) 2 ∧
    slot0_partition = 428544 ∧
    slot1_partition = slot0_partition ∧
    (main_partitions.map Prod.snd).sum = FLASH_SIZE ∧
    calculate_partitions FLASH_SIZE main_partitions =
      Except.ok
        [⟨"mcuboot", 0, 112640, 112640⟩,
         ⟨"slot0", 112640, 541184, 428544⟩,
         ⟨"slot1", 541184, 969728, 428544⟩,
         ⟨"scratch", 969728, 970752, 1024⟩,
         ⟨"storage", 970752, 1048576, 77824⟩] ∧
    (([⟨"mcuboot", 0, 112640, 112640⟩,
       ⟨"slot0", 112640, 541184, 428544⟩,
       ⟨"slot1", 541184, 969728, 428544⟩,
       ⟨"scratch", 969728, 970752, 1024⟩,
       ⟨"storage", 970752, 1048576, 77824⟩] : List Partition).getLast?).map Partition.end_ =
      some 0x100000 := by decide

/-- C10: for every record sequence, including any without a slot0
record, the overlay text begins with the fixed preamble whose chosen
block unconditionally contains the entry
`zephyr,code-partition = &slot0_partition;`. -/
theorem c10_chosen_entry_unconditional (ps : List Partition) :
    ∃ rest : String, update_app_overlay ps =
      ("// Auto-generated app.overlay from partion.py\n" ++
       "// Device tree overlay for partition configuration\n\n" ++
       "/ \x7b\n" ++
       "\tchosen \x7b\n") ++
      ("\t\tzephyr,code-partition = &slot0_partition;\n" ++ rest) := by
  refine ⟨"\t\x7d;\n" ++ "\x7d;\n\n" ++ "&flash0 \x7b\n" ++ "\tpartitions \x7b\n" ++
    "\t\tcompatible = \"fixed-partitions\";\n" ++ "\t\t#address-cells = <1>;\n" ++
    "\t\t#size-cells = <1>;\n\n" ++ (concatStr overlay_partition_node ps ++ overlay_footer),
    ?_⟩
  show (ps.foldl (fun acc p => acc ++ overlay_partition_node p) overlay_header) ++
    overlay_footer = _
  rw [foldl_append_concatStr overlay_partition_node ps overlay_header]
  simp only [overlay_header, String.append_assoc]

end Partion
